import Mathlib

/-!
Shallow embedding of the ffxivstats scraper (`src/index.js`) and proofs about
its HTML-to-structured-data pipeline: the text normalizer `norm`, the category
mapper `mapCategory`, the per-job fragment parser `parseLi`, the view-source
reconstructor `reconstructFromViewSource`, and the request handler's input
validation.  JavaScript strings are modelled as Lean `String` / `List Char`,
JavaScript numbers arising from `parseInt` on digit strings as `Nat`, and the
regular expressions of the source are embedded as executable scanners that
mirror the JS engine's leftmost-match, greedy/lazy backtracking semantics for
the concrete patterns appearing in the code.
-/

namespace FFXIVStats

/-! ### Character classes

These mirror the JavaScript regex character classes used by the source:
`\d`, `[A-Za-z]`, `[\d,]`, and `\s` (the ECMAScript WhiteSpace and
LineTerminator sets, also used by `String.prototype.trim`). -/

/-- JS `\d`: an ASCII decimal digit. -/
def isDigitCh (c : Char) : Bool :=
  decide (48 ≤ c.toNat ∧ c.toNat ≤ 57)

/-- JS `[A-Za-z]`: an ASCII Latin letter. -/
def isAsciiLetter (c : Char) : Bool :=
  decide ((65 ≤ c.toNat ∧ c.toNat ≤ 90) ∨ (97 ≤ c.toNat ∧ c.toNat ≤ 122))

/-- ASCII letter or digit (used for scanning named character references). -/
def isAsciiAlphaNum (c : Char) : Bool :=
  isDigitCh c || isAsciiLetter c

/-- JS `[\d,]`: a digit or a comma (thousands separator). -/
def isDigitComma (c : Char) : Bool :=
  isDigitCh c || c == ','

/-- JS `\s`: ECMAScript whitespace (WhiteSpace ∪ LineTerminator), the set
matched by `\s` in regexes and stripped by `String.prototype.trim`. -/
def isJsWs (c : Char) : Bool :=
  c == ' ' || c == '\t' || c == '\n' || c == '\x0b' || c == '\x0c' || c == '\r' ||
  c == '\u00a0' || c == '\u1680' ||
  decide (0x2000 ≤ c.toNat ∧ c.toNat ≤ 0x200a) ||
  c == '\u2028' || c == '\u2029' || c == '\u202f' || c == '\u205f' ||
  c == '\u3000' || c == '\ufeff'

/-- Value of a digit list read in base 10, as done by `parseInt(s, 10)` on a
string of decimal digits. -/
def digitsToNat (l : List Char) : Nat :=
  l.foldl (fun n c => 10 * n + (c.toNat - 48)) 0

/-! ### Text normalizer (`norm`, src/index.js lines 125-127)

`norm(s)` is `(s || "").replace(/\s+/g, " ").trim()`: every maximal run of
whitespace becomes a single space, then leading/trailing whitespace is
removed. -/

/-- Drop JS whitespace from both ends of a character list
(`String.prototype.trim`). -/
def trimList (l : List Char) : List Char :=
  ((l.dropWhile isJsWs).reverse.dropWhile isJsWs).reverse

/-- Replace every maximal run of JS whitespace by a single space
(`.replace(/\s+/g, " ")`).  The boolean flag records whether the previous
character was part of a whitespace run. -/
def collapseGo : Bool → List Char → List Char
  | _, [] => []
  | prevWs, c :: rest =>
    if isJsWs c then
      if prevWs then collapseGo true rest else ' ' :: collapseGo true rest
    else c :: collapseGo false rest

/-- The source's `norm`: collapse whitespace runs to single spaces, then trim. -/
def norm (s : String) : String :=
  String.mk (trimList (collapseGo false s.data))

/-- The source's `norm` applied to a possibly-absent value: `(s || "")`
replaces a missing (or empty) argument by the empty string. -/
def normOpt (s : Option String) : String :=
  norm (s.getD "")

/-! ### Substring search (`String.prototype.includes`) -/

/-- Prefix test parameterized by a character comparison. -/
def startsWithBy (eq : Char → Char → Bool) : List Char → List Char → Bool
  | [], _ => true
  | _ :: _, [] => false
  | p :: ps, c :: cs => eq p c && startsWithBy eq ps cs

/-- Substring test parameterized by a character comparison: does `pat` occur
(contiguously) anywhere in the subject? -/
def containsBy (eq : Char → Char → Bool) (pat : List Char) : List Char → Bool
  | [] => startsWithBy eq pat []
  | c :: rest => startsWithBy eq pat (c :: rest) || containsBy eq pat rest

/-- JS `t.includes(sub)`: case-sensitive substring containment. -/
def strIncludes (t sub : String) : Bool :=
  containsBy (fun a b => a == b) sub.data t.data

/-! ### Category mapper (`mapCategory`, src/index.js lines 129-139) -/

/-- The source's `mapCategory`: substring tests against a normalized,
lowercased section label, in a fixed priority order, first match winning;
returns the (group, slot) pair or `none`. -/
def mapCategory (t : String) : Option (String × String) :=
  if strIncludes t "tank" then some ("DoW/DoM", "Tank")
  else if strIncludes t "healer" then some ("DoW/DoM", "Healer")
  else if strIncludes t "melee dps" then some ("DoW/DoM", "Melee DPS")
  else if strIncludes t "physical ranged dps" then some ("DoW/DoM", "Physical Ranged DPS")
  else if strIncludes t "magical ranged dps" then some ("DoW/DoM", "Magical Ranged DPS")
  else if strIncludes t "limited" then some ("DoW/DoM", "Limited Jobs")
  else if strIncludes t "disciples of the hand" || t == "hand" then some ("DoH/DoL", "Hand (DoH)")
  else if strIncludes t "disciples of the land" || t == "land" then some ("DoH/DoL", "Land (DoL)")
  else none

/-! ### Claim C5 and Claim C8 -/

/-- Claim C5: `mapCategory`, applied to a normalized lowercased label, uses
substring matching in a fixed priority order with first match winning:
"tank" maps to the combat Tank slot, "physical ranged dps" maps to the combat
Physical Ranged DPS slot (not ambiguously to another dps slot), "hand" maps to
the Hand slot, and "unknown" maps to the not-found signal (`none`). -/
theorem c5_mapCategory_cases :
    mapCategory "tank" = some ("DoW/DoM", "Tank") ∧
    mapCategory "physical ranged dps" = some ("DoW/DoM", "Physical Ranged DPS") ∧
    mapCategory "hand" = some ("DoH/DoL", "Hand (DoH)") ∧
    mapCategory "unknown" = none := by
  decide

/-- Claim C8: `norm` replaces every run of whitespace with a single space and
trims leading/trailing whitespace, and maps empty or absent input to the empty
string: `norm "  a   b\n c "` equals `"a b c"`, `norm ""` equals `""`, and an
absent argument yields `""`. -/
theorem c8_norm_cases :
    norm "  a   b\n c " = "a b c" ∧ norm "" = "" ∧ normOpt none = "" := by
  decide

/-! ### Experience-pair pattern (src/index.js line 161)

`raw.match(/(\d[\d,]*)\s*\/\s*(\d[\d,]*)/)` searches for the leftmost
occurrence of the ratio pattern anywhere in the string.  Both starred groups
are greedy runs over the class `[\d,]`; since a character of that class is
neither whitespace nor `/`, shortening a greedy run can never let the
following `\s*\/` match, so the JS backtracking engine deterministically takes
the maximal runs.  The scanner below reproduces exactly that behavior. -/

/-- Attempt to match `(\d[\d,]*)\s*\/\s*(\d[\d,]*)` anchored at the head of
the list; on success returns the two captured groups. -/
def expMatchAt (s : List Char) : Option (List Char × List Char) :=
  match s with
  | [] => none
  | c :: rest =>
    if isDigitCh c then
      match (rest.dropWhile isDigitComma).dropWhile isJsWs with
      | '/' :: a2 =>
        match a2.dropWhile isJsWs with
        | d :: rest2 =>
          if isDigitCh d then
            some (c :: rest.takeWhile isDigitComma, d :: rest2.takeWhile isDigitComma)
          else none
        | [] => none
      | _ => none
    else none

/-- Leftmost match of the ratio pattern: try every start position in order. -/
def expMatchList : List Char → Option (List Char × List Char)
  | [] => none
  | c :: rest =>
    match expMatchAt (c :: rest) with
    | some r => some r
    | none => expMatchList rest

/-- The numeric experience pair extracted by the source: leftmost match of the
ratio pattern, thousands separators stripped from each group before
`parseInt`. -/
def expMatch (s : String) : Option (Nat × Nat) :=
  match expMatchList s.data with
  | some (g1, g2) =>
    some (digitsToNat (g1.filter (fun c => c != ',')),
          digitsToNat (g2.filter (fun c => c != ',')))
  | none => none

/-! ### Job-entry parser (`parseLi`, src/index.js lines 142-180) -/

/-- One direct `<div>` child of a job `<li>`: its descendant text and the
three attributes consulted for the tooltip. -/
structure Div where
  text : String
  dataTooltip : Option String := none
  title : Option String := none
  ariaLabel : Option String := none
  deriving DecidableEq

/-- One job `<li>` fragment: the `src` of the first descendant `<img>` (if
any) and the direct `<div>` children in document order. -/
structure Li where
  imgSrc : Option String := none
  divs : List Div
  deriving DecidableEq

/-- The mutable locals of `parseLi` (`level`, `name`, `tooltip`, `exp`,
`max`), threaded through the per-`<div>` loop. -/
structure LiState where
  level : Nat
  name : String
  tooltip : String
  exp : Nat
  max : Nat
  deriving DecidableEq

/-- Result record of `parseLi`. -/
structure ParsedLi where
  icon : Option String
  level : Nat
  name : String
  tooltip : String
  exp : Nat
  max : Nat
  deriving DecidableEq

/-- JS `a || b` on an optional string: an absent or empty (falsy) value falls
through to the alternative. -/
def jsOr (a : Option String) (b : String) : String :=
  match a with
  | some s => if s == "" then b else s
  | none => b

/-- JS `a || null` on an optional string: an empty string collapses to null. -/
def jsOrNone (a : Option String) : Option String :=
  match a with
  | some s => if s == "" then none else some s
  | none => a

/-- The tooltip chosen for the name `<div>`:
`$div.attr("data-tooltip") || $div.attr("title") || $div.attr("aria-label") || name`. -/
def divTooltip (d : Div) (nm : String) : String :=
  jsOr d.dataTooltip (jsOr d.title (jsOr d.ariaLabel nm))

/-- Is the normalized text purely 1-3 decimal digits (`/^\d{1,3}$/`)? -/
def isLevel13 (s : String) : Bool :=
  decide (1 ≤ s.data.length ∧ s.data.length ≤ 3) && s.data.all isDigitCh

/-- Does the text contain an ASCII Latin letter (`/[A-Za-z]/.test`)? -/
def hasAsciiLetter (s : String) : Bool :=
  s.data.any isAsciiLetter

/-- The placeholder test `isDash`: a literal dash or its mojibake variant. -/
def isDash (s : String) : Bool :=
  s == "-" || s == "â€“"

/-- One iteration of the `$li.children("div").each` loop of `parseLi`.
The three rules run in source order with early `return`:
level (guarded by the falsy test `!level`), experience pair (unguarded, so a
later match overwrites), then name (guarded by `!name`, excluding placeholders
and requiring an ASCII letter). -/
def parseStep (st : LiState) (d : Div) : LiState :=
  if st.level == 0 && isLevel13 (norm d.text) then
    { st with level := digitsToNat (norm d.text).data }
  else
    match expMatch (norm d.text) with
    | some p => { st with exp := p.1, max := p.2 }
    | none =>
      if st.name == "" && !(norm d.text == "") && !(isDash (norm d.text)) &&
          hasAsciiLetter (norm d.text) then
        { st with name := norm d.text, tooltip := divTooltip d (norm d.text) }
      else st

/-- The source's `parseLi`: icon from the first `<img>` (empty `src` collapsed
by `|| null`), then the per-`<div>` rule loop starting from all-default
state. -/
def parseLi (li : Li) : ParsedLi :=
  let st := li.divs.foldl parseStep ⟨0, "", "", 0, 0⟩
  ⟨jsOrNone li.imgSrc, st.level, st.name, st.tooltip, st.exp, st.max⟩

/-! ### Aggregator append step (src/index.js lines 72-84) -/

/-- One job object as pushed into a slot's `jobs` array. -/
structure Job where
  job_icon : Option String
  job_level : Nat
  job_name : String
  job_name_tooltip : String
  job_exp : Nat
  job_exp_max : Nat
  deriving DecidableEq

/-- The job object built from a parsed fragment (`parsed.icon || null`,
`parsed.tooltip || parsed.name`; `x || 0` on a `Nat` is the identity). -/
def mkJob (p : ParsedLi) : Job :=
  ⟨jsOrNone p.icon, p.level, p.name,
    (if p.tooltip == "" then p.name else p.tooltip), p.exp, p.max⟩

/-- The aggregator's per-`<li>` step: `if (!parsed.name) return;` else push
the job object onto the slot's list. -/
def pushJob (jobs : List Job) (li : Li) : List Job :=
  if (parseLi li).name == "" then jobs else jobs ++ [mkJob (parseLi li)]

/-- A `<div>` sub-block carrying only text (no tooltip attributes). -/
def textDiv (t : String) : Div := ⟨t, none, none, none⟩

/-! ### Helper lemmas about the parsing rules -/

/-- A decimal digit is not an ASCII letter. -/
lemma isAsciiLetter_eq_false_of_isDigitCh {c : Char} (h : isDigitCh c = true) :
    isAsciiLetter c = false := by
  simp only [isDigitCh, decide_eq_true_eq] at h
  simp only [isAsciiLetter, decide_eq_false_iff_not]
  omega

/-- A list of digits contains no ASCII letter. -/
lemma no_letter_of_all_digits :
    ∀ l : List Char, l.all isDigitCh = true → l.any isAsciiLetter = false
  | [], _ => rfl
  | c :: rest, h => by
    rw [List.all_cons, Bool.and_eq_true] at h
    simp [List.any_cons, isAsciiLetter_eq_false_of_isDigitCh h.1,
      no_letter_of_all_digits rest h.2]

/-- Only the name rule of `parseStep` writes to `name`; a sub-block whose
normalized text has no ASCII letter leaves the name unchanged. -/
lemma parseStep_name_eq (st : LiState) (d : Div)
    (h : hasAsciiLetter (norm d.text) = false) :
    (parseStep st d).name = st.name := by
  unfold parseStep
  split
  · rfl
  · split
    · rfl
    · simp [h]

/-- Folding `parseStep` over sub-blocks none of whose normalized texts has an
ASCII letter leaves the name unchanged. -/
lemma foldl_parseStep_name (divs : List Div) :
    ∀ st : LiState,
      divs.all (fun d => hasAsciiLetter (norm d.text) == false) = true →
      (divs.foldl parseStep st).name = st.name := by
  induction divs with
  | nil => intro st _; rfl
  | cons d ds ih =>
    intro st h
    rw [List.all_cons, Bool.and_eq_true] at h
    have h1 : hasAsciiLetter (norm d.text) = false := by simpa using h.1
    rw [List.foldl_cons, ih _ h.2, parseStep_name_eq st d h1]

/-- Core of claims C6 and C10: when no sub-block's normalized text contains
an ASCII letter, `parseLi` resolves no name and the aggregator's append step
leaves the job list unchanged. -/
lemma name_empty_of_no_letters (li : Li) (jobs : List Job)
    (h : li.divs.all (fun d => hasAsciiLetter (norm d.text) == false) = true) :
    (parseLi li).name = "" ∧ pushJob jobs li = jobs := by
  have hn : (parseLi li).name = "" := foldl_parseStep_name li.divs ⟨0, "", "", 0, 0⟩ h
  refine ⟨hn, ?_⟩
  unfold pushJob
  rw [hn]
  simp

/-! ### Level rule characterization (for Claim C2) -/

/-- The value `parseLi` ends up with as `level`: the first sub-block whose
normalized text is purely 1-3 decimal digits with a nonzero value (0 when
there is none).  This is the consequence of the falsy guard `!level`: a
sub-block matched as "0" leaves the guard open for later digit sub-blocks. -/
def firstNonzeroLevel : List Div → Nat
  | [] => 0
  | d :: ds =>
    if isLevel13 (norm d.text) && !(digitsToNat (norm d.text).data == 0) then
      digitsToNat (norm d.text).data
    else firstNonzeroLevel ds

/-- How one `parseStep` iteration changes `level`. -/
lemma parseStep_level_eq (st : LiState) (d : Div) :
    (parseStep st d).level =
      if st.level == 0 && isLevel13 (norm d.text) then digitsToNat (norm d.text).data
      else st.level := by
  unfold parseStep
  split
  next hcond => simp [hcond]
  next hcond =>
    split
    next p hm => simp [hcond]
    next hm => split <;> simp [hcond]

/-- Once the level is nonzero it never changes. -/
lemma foldl_level_ne_zero (divs : List Div) :
    ∀ st : LiState, st.level ≠ 0 → (divs.foldl parseStep st).level = st.level := by
  induction divs with
  | nil => intro st _; rfl
  | cons d ds ih =>
    intro st h
    have hb : (st.level == 0) = false := by simpa using h
    have hstep : (parseStep st d).level = st.level := by
      rw [parseStep_level_eq]; simp [hb]
    rw [List.foldl_cons, ih _ (by rw [hstep]; exact h), hstep]

/-- While the level is zero, the fold computes `firstNonzeroLevel`. -/
lemma foldl_level_zero (divs : List Div) :
    ∀ st : LiState, st.level = 0 →
      (divs.foldl parseStep st).level = firstNonzeroLevel divs := by
  induction divs with
  | nil => intro st h; simpa [firstNonzeroLevel] using h
  | cons d ds ih =>
    intro st h
    rw [List.foldl_cons, firstNonzeroLevel]
    by_cases hl : isLevel13 (norm d.text) = true
    · have hcond : (st.level == 0 && isLevel13 (norm d.text)) = true := by simp [h, hl]
      have hstep : (parseStep st d).level = digitsToNat (norm d.text).data := by
        rw [parseStep_level_eq]; simp [hcond]
      by_cases hz : digitsToNat (norm d.text).data = 0
      · rw [ih _ (by rw [hstep]; exact hz)]
        simp [hl, hz]
      · rw [foldl_level_ne_zero ds _ (by rw [hstep]; exact hz), hstep]
        simp [hl, hz]
    · have hlf : isLevel13 (norm d.text) = false := by simpa using hl
      have hstep : (parseStep st d).level = st.level := by
        rw [parseStep_level_eq]; simp [hlf]
      rw [ih _ (by rw [hstep]; exact h)]
      simp [hlf]

/-! ### Experience rule characterization (for Claim C7) -/

/-- Dropping while a predicate holds of every element empties the list. -/
lemma dropWhile_eq_nil_of_all (p : Char → Bool) :
    ∀ l : List Char, l.all p = true → l.dropWhile p = []
  | [], _ => rfl
  | c :: rest, h => by
    rw [List.all_cons, Bool.and_eq_true] at h
    rw [List.dropWhile_cons, if_pos h.1]
    exact dropWhile_eq_nil_of_all p rest h.2

/-- Digits satisfy the digit-or-comma class. -/
lemma all_digitComma_of_all_digit (l : List Char) (h : l.all isDigitCh = true) :
    l.all isDigitComma = true := by
  rw [List.all_eq_true] at h ⊢
  intro c hc
  have hcd := h c hc
  simp only at hcd ⊢
  simp [isDigitComma, hcd]

/-- The ratio pattern needs a `/`, so it never matches inside a pure digit
string. -/
lemma expMatchList_eq_none_of_all_digits :
    ∀ l : List Char, l.all isDigitCh = true → expMatchList l = none
  | [], _ => rfl
  | c :: rest, h => by
    rw [List.all_cons, Bool.and_eq_true] at h
    have hdrop : rest.dropWhile isDigitComma = [] :=
      dropWhile_eq_nil_of_all _ _ (all_digitComma_of_all_digit _ h.2)
    have hat : expMatchAt (c :: rest) = none := by
      simp [expMatchAt, hdrop]
    simp [expMatchList, hat, expMatchList_eq_none_of_all_digits rest h.2]

/-- A sub-block accepted by the level rule can never match the experience
pattern. -/
lemma expMatch_eq_none_of_isLevel13 (s : String) (h : isLevel13 s = true) :
    expMatch s = none := by
  rw [isLevel13, Bool.and_eq_true] at h
  rw [expMatch, expMatchList_eq_none_of_all_digits s.data h.2]

/-- The per-sub-block effect of the (unguarded) experience rule on the
`(exp, max)` pair: a matching sub-block overwrites, anything else keeps. -/
def expFold (acc : Nat × Nat) (d : Div) : Nat × Nat :=
  match expMatch (norm d.text) with
  | some p => p
  | none => acc

/-- The `(exp, max)` pair `parseLi` ends up with: that of the last sub-block
matching the ratio pattern, `(0, 0)` when none matches. -/
def lastExpPair (divs : List Div) : Nat × Nat :=
  divs.foldl expFold (0, 0)

/-- One `parseStep` iteration acts on the `(exp, max)` pair exactly as
`expFold`. -/
lemma parseStep_exp_pair (st : LiState) (d : Div) :
    ((parseStep st d).exp, (parseStep st d).max) = expFold (st.exp, st.max) d := by
  unfold parseStep expFold
  split
  next hcond =>
    have hl : isLevel13 (norm d.text) = true := by
      rw [Bool.and_eq_true] at hcond; exact hcond.2
    rw [expMatch_eq_none_of_isLevel13 _ hl]
  next hcond =>
    split
    next p hm => rfl
    next hm => split <;> rfl

/-- Folding `parseStep` computes the same `(exp, max)` pair as folding
`expFold`. -/
lemma foldl_exp_pair (divs : List Div) :
    ∀ st : LiState,
      ((divs.foldl parseStep st).exp, (divs.foldl parseStep st).max) =
        divs.foldl expFold (st.exp, st.max) := by
  induction divs with
  | nil => intro st; rfl
  | cons d ds ih =>
    intro st
    rw [List.foldl_cons, List.foldl_cons, ih, parseStep_exp_pair]

/-! ### Claims C1, C2, C6, C7, C10 -/

/-- The fragment of the spec's level-0 example. -/
def c1Li : Li := ⟨none, [textDiv "0", textDiv "-", textDiv "Gladiator", textDiv "0 / 0"]⟩

/-- Claim C1: for a job fragment whose sub-blocks, in order, have normalized
texts "0", "-", "Gladiator", "0 / 0", `parseLi` returns level 0, name
"Gladiator", exp 0 and max 0: a level of 0 does not suppress name extraction,
and the dash placeholder sub-block is never chosen as the name. -/
theorem c1_level_zero_keeps_name :
    parseLi c1Li = ⟨none, 0, "Gladiator", "Gladiator", 0, 0⟩ := by
  decide

/-- The fragment refuting Claim C2 as stated. -/
def c2Li : Li := ⟨none, [textDiv "0", textDiv "5"]⟩

/-- Claim C2, counterexample: the first sub-block whose normalized text is
purely 1-3 decimal digits is "0", yet the level comes out as 5 — the later
pure-digit sub-block did change the level, because the guard `!level` is
still open after a level of 0. -/
theorem c2_first_digit_block_refuted :
    c2Li.divs.map (fun d => norm d.text) = ["0", "5"] ∧
    isLevel13 "0" = true ∧ digitsToNat ("0".data) = 0 ∧
    (parseLi c2Li).level = 5 := by
  decide

/-- Claim C2 (amended): in the Job-Entry Parser the level rule accepts a
pure-digit (1-3 digits) sub-block only while the current level is 0, so the
resulting level is the value of the first pure-digit sub-block with a nonzero
value (0 when there is none); in particular, after a first match of "0" a
later pure-digit sub-block does change the level. -/
theorem c2_level_first_nonzero_digits (li : Li) :
    (parseLi li).level = firstNonzeroLevel li.divs :=
  foldl_level_zero li.divs ⟨0, "", "", 0, 0⟩ rfl

/-- The all-placeholder fragment for the witness of Claim C6. -/
def c6Li : Li := ⟨none, [textDiv "0", textDiv "-"]⟩

/-- Claim C6: for every job fragment in which the only sub-block whose
normalized text is non-numeric is the placeholder "-", `parseLi` resolves no
name, and the aggregator then omits the entry entirely from the slot's job
list (no blank entry is appended). -/
theorem c6_dash_only_entry_dropped (li : Li) (jobs : List Job)
    (h : li.divs.all
      (fun d => (norm d.text).data.all isDigitCh || norm d.text == "-") = true) :
    (parseLi li).name = "" ∧ pushJob jobs li = jobs := by
  refine name_empty_of_no_letters li jobs ?_
  rw [List.all_eq_true] at h ⊢
  intro d hd
  have hc := h d hd
  simp only [Bool.or_eq_true] at hc
  show (hasAsciiLetter (norm d.text) == false) = true
  rcases hc with hdig | hdash
  · have hany : (norm d.text).data.any isAsciiLetter = false :=
      no_letter_of_all_digits _ hdig
    simp [hasAsciiLetter, hany]
  · have heq : norm d.text = "-" := by simpa using hdash
    rw [heq]
    decide

/-- Witness for Claim C6 at the fragment with sub-blocks "0" and "-". -/
theorem c6_dash_only_entry_dropped_witness :
    (c6Li.divs.all
      (fun d => (norm d.text).data.all isDigitCh || norm d.text == "-") = true) ∧
    ((parseLi c6Li).name = "" ∧ pushJob [] c6Li = []) :=
  ⟨by decide, c6_dash_only_entry_dropped c6Li [] (by decide)⟩

/-- The fragment refuting Claim C7 as stated. -/
def c7Li : Li := ⟨none, [textDiv "1 / 2", textDiv "3 / 4"]⟩

/-- Claim C7, counterexample: the first sub-block matching the ratio pattern
is "1 / 2" (which alone would give exp 1 and max 2), yet `parseLi` returns
exp 3 and max 4 — the experience assignment is unguarded, so the last
matching sub-block wins, not the first. -/
theorem c7_first_ratio_block_refuted :
    expMatch (norm "1 / 2") = some (1, 2) ∧
    c7Li.divs.map (fun d => norm d.text) = ["1 / 2", "3 / 4"] ∧
    (parseLi c7Li).exp = 3 ∧ (parseLi c7Li).max = 4 := by
  decide

/-- Claim C7 (amended): the experience pair is taken from the last sub-block
whose normalized text matches the digits/digits ratio pattern (each matching
sub-block overwrites the pair; `(0, 0)` when none matches), with thousands
separators stripped before numeric conversion: for the sub-block text
"1,234 / 5,600" the matched pair is exp = 1234 and max = 5600. -/
theorem c7_exp_pair_last_match :
    (∀ li : Li, ((parseLi li).exp, (parseLi li).max) = lastExpPair li.divs) ∧
    expMatch "1,234 / 5,600" = some (1234, 5600) := by
  refine ⟨fun li => foldl_exp_pair li.divs ⟨0, "", "", 0, 0⟩, ?_⟩
  decide

/-- The non-Latin fragment for the witness of Claim C10. -/
def c10Li : Li := ⟨none, [textDiv "80", textDiv "モンク", textDiv "0 / 0"]⟩

/-- Claim C10 (implicit): the name rule requires at least one ASCII Latin
letter: for every fragment none of whose sub-block normalized texts contains
an ASCII letter — for example a name written entirely in a non-Latin script —
`parseLi` returns an empty name, and the entry is consequently dropped by the
aggregator's append step. -/
theorem c10_no_ascii_letter_dropped (li : Li) (jobs : List Job)
    (h : li.divs.all (fun d => hasAsciiLetter (norm d.text) == false) = true) :
    (parseLi li).name = "" ∧ pushJob jobs li = jobs :=
  name_empty_of_no_letters li jobs h

/-- Witness for Claim C10 at a fragment whose name sub-block is katakana. -/
theorem c10_no_ascii_letter_dropped_witness :
    (c10Li.divs.all (fun d => hasAsciiLetter (norm d.text) == false) = true) ∧
    ((parseLi c10Li).name = "" ∧ pushJob [] c10Li = []) :=
  ⟨by decide, c10_no_ascii_letter_dropped c10Li [] (by decide)⟩

/-! ### View-source reconstruction (src/index.js lines 108-122)

The cell regex is
`/<td[^>]*class=(?:"|')([^"']*line-content[^"']*)(?:"|')[^>]*>([\s\S]*?)<\/td>/gi`.
The scanner below reproduces the JS engine's behavior for this pattern:
leftmost match, greedy `[^>]*` tried longest-first (the `k` loop of
`tdTryAt`), and the lazy `([\s\S]*?)` stopping at the first following
`</td>`.  The two inner greedy runs of the class group and the `[^>]*>` tail
are forced (shortening them puts a character of the same class where the
following literal must match), so they are taken maximally without a search.
The `i` flag is modelled by ASCII case folding, which is exact for the ASCII
literals of this pattern. -/

/-- ASCII-lowercased code point, for the regex `i` flag. -/
def lcNat (c : Char) : Nat :=
  if 65 ≤ c.toNat ∧ c.toNat ≤ 90 then c.toNat + 32 else c.toNat

/-- Case-insensitive character comparison (ASCII folding). -/
def lcEq (a b : Char) : Bool :=
  lcNat a == lcNat b

/-- The regex alternative `(?:"|')`: either quote character. -/
def isQuote (c : Char) : Bool :=
  c == '"' || c == '\''

/-- Literal `<td` of the cell pattern. -/
def tdOpenChars : List Char := "<td".data

/-- Literal `class=` of the cell pattern. -/
def classEqChars : List Char := "class=".data

/-- Literal `line-content` of the cell pattern. -/
def lineContentChars : List Char := "line-content".data

/-- Literal `</td>` closing the lazy group. -/
def tdCloseChars : List Char := "</td>".data

/-- The lazy tail `([\s\S]*?)<\/td>`: capture up to the first `</td>`
(case-insensitive); fail when there is none. -/
def lazyClose : List Char → Option (List Char × List Char)
  | [] => none
  | c :: w =>
    if startsWithBy lcEq tdCloseChars (c :: w) then some ([], (c :: w).drop 5)
    else
      match lazyClose w with
      | some (cap, rest) => some (c :: cap, rest)
      | none => none

/-- The segment `class=(?:"|')([^"']*line-content[^"']*)(?:"|')[^>]*>` tried
at a fixed position: on success returns the remainder just after the `>`.
The capture group is the maximal run of non-quote characters after the
opening quote; it must contain `line-content` (case-insensitively) and be
followed by a quote character. -/
def classAttempt (v : List Char) : Option (List Char) :=
  if startsWithBy lcEq classEqChars v then
    match v.drop 6 with
    | q :: t =>
      if isQuote q then
        match t.dropWhile (fun c => !(isQuote c)) with
        | _ :: u =>
          if containsBy lcEq lineContentChars (t.takeWhile (fun c => !(isQuote c))) then
            match u.dropWhile (fun c => c != '>') with
            | _ :: w => some w
            | [] => none
          else none
        | [] => none
      else none
    | [] => none
  else none

/-- One backtracking attempt: `[^>]*` consumes `k` characters, then the class
segment and the lazy tail must match. -/
def tdAttemptAt (rest : List Char) (k : Nat) : Option (List Char × List Char) :=
  match classAttempt (rest.drop k) with
  | some w => lazyClose w
  | none => none

/-- Greedy backtracking over the first `[^>]*`: try the longest consumption
first, shrinking on failure. -/
def tdTryAt : Nat → List Char → Option (List Char × List Char)
  | 0, rest => tdAttemptAt rest 0
  | k + 1, rest =>
    match tdAttemptAt rest (k + 1) with
    | some res => some res
    | none => tdTryAt k rest

/-- Match the whole cell pattern anchored at the head of the list; on success
returns the inner capture (`m[2]`) and the remainder after the match. -/
def matchTdAt (s : List Char) : Option (List Char × List Char) :=
  if startsWithBy lcEq tdOpenChars s then
    tdTryAt ((s.drop 3).takeWhile (fun c => c != '>')).length (s.drop 3)
  else none

/-- The `while ((m = cellRegex.exec(html)) !== null)` loop: repeatedly find
the leftmost match and continue after it, collecting inner captures in scan
order.  The fuel is the input length; every step either advances one
character or consumes a whole match, so it never runs out. -/
def scanCellsGo : Nat → List Char → List (List Char)
  | 0, _ => []
  | _ + 1, [] => []
  | fuel + 1, c :: rest =>
    match matchTdAt (c :: rest) with
    | some (cap, after) => cap :: scanCellsGo fuel after
    | none => scanCellsGo fuel rest

/-- Raw inner captures of all line-content cells, in scan order. -/
def rawCells (html : String) : List (List Char) :=
  scanCellsGo html.data.length html.data

/-- The per-cell tag strip `inner.replace(/<[^>]+>/g, "")`: a match is a `<`,
at least one non-`>` character, then `>`; everything else is kept.  Fueled by
the input length (each step consumes at least one character). -/
def stripTagsGo : Nat → List Char → List Char
  | 0, _ => []
  | _ + 1, [] => []
  | fuel + 1, c :: rest =>
    if c == '<' then
      match rest.takeWhile (fun x => x != '>'), rest.dropWhile (fun x => x != '>') with
      | [], _ => c :: stripTagsGo fuel rest
      | _ :: _, [] => c :: stripTagsGo fuel rest
      | _ :: _, _ :: w => stripTagsGo fuel w
    else c :: stripTagsGo fuel rest

/-- Strip all tag-shaped substrings from a cell's inner text. -/
def stripTags (s : List Char) : List Char :=
  stripTagsGo s.length s

/-! ### Entity decoder

Modelled from the spec: the Entity Decoder (§4.1) is the external `he`
library's `decode`, whose code is not part of this repository.  Per the spec
it resolves numeric and named character references to literal characters,
leaves already-literal text unchanged, and passes unrecognized references
through.  The model below decodes decimal and hexadecimal numeric references
and a table of common named references, all terminated by `;`. -/

/-- Hexadecimal digit test. -/
def isHexDigitCh (c : Char) : Bool :=
  decide ((48 ≤ c.toNat ∧ c.toNat ≤ 57) ∨ (97 ≤ c.toNat ∧ c.toNat ≤ 102) ∨
    (65 ≤ c.toNat ∧ c.toNat ≤ 70))

/-- Value of a hexadecimal digit. -/
def hexVal (c : Char) : Nat :=
  if 48 ≤ c.toNat ∧ c.toNat ≤ 57 then c.toNat - 48
  else if 97 ≤ c.toNat ∧ c.toNat ≤ 102 then c.toNat - 87
  else if 65 ≤ c.toNat ∧ c.toNat ≤ 70 then c.toNat - 55
  else 0

/-- Value of a hexadecimal digit list. -/
def hexToNat (l : List Char) : Nat :=
  l.foldl (fun n c => 16 * n + hexVal c) 0

/-- Character for a decoded numeric reference; invalid scalar values become
the replacement character. -/
def refChar (n : Nat) : List Char :=
  if n.isValidChar then [Char.ofNat n] else ['�']

/-- Modelled from the spec: the named character references the model
resolves (a representative subset of the decoder's full table). -/
def entityTable : List (String × Char) :=
  [("amp", '&'), ("lt", '<'), ("gt", '>'), ("quot", '"'), ("apos", '\''),
   ("nbsp", ' '), ("ndash", '–'), ("mdash", '—'), ("hellip", '…'),
   ("rsquo", '’'), ("lsquo", '‘'), ("copy", '©')]

/-- Decimal numeric reference body (after `&#`): digits terminated by `;`. -/
def numRefDec (rest : List Char) : Option (List Char × List Char) :=
  match rest.dropWhile isDigitCh with
  | ';' :: rest3 =>
    if rest.takeWhile isDigitCh == [] then none
    else some (refChar (digitsToNat (rest.takeWhile isDigitCh)), rest3)
  | _ => none

/-- Hexadecimal numeric reference body (after `&#x`): hex digits terminated
by `;`. -/
def numRefHex (rest2 : List Char) : Option (List Char × List Char) :=
  match rest2.dropWhile isHexDigitCh with
  | ';' :: rest3 =>
    if rest2.takeWhile isHexDigitCh == [] then none
    else some (refChar (hexToNat (rest2.takeWhile isHexDigitCh)), rest3)
  | _ => none

/-- Named reference body (after `&`): an alphanumeric name terminated by `;`,
looked up in the table. -/
def namedRef (s : List Char) : Option (List Char × List Char) :=
  match s.dropWhile isAsciiAlphaNum with
  | ';' :: rest3 =>
    (match entityTable.lookup (String.mk (s.takeWhile isAsciiAlphaNum)) with
     | some ch => some ([ch], rest3)
     | none => none)
  | _ => none

/-- Try to read one character reference right after a `&`: numeric (decimal
or hexadecimal) or named, terminated by `;`.  Returns the decoded characters
and the remainder, or `none` to leave the `&` literal. -/
def tryRef (s : List Char) : Option (List Char × List Char) :=
  match s with
  | c :: rest =>
    if c == '#' then
      match rest with
      | c2 :: rest2 =>
        if c2 == 'x' || c2 == 'X' then numRefHex rest2 else numRefDec rest
      | [] => none
    else namedRef (c :: rest)
  | [] => namedRef []

/-- Decode character references, scanning left to right; fueled by the input
length (each step consumes at least one character). -/
def decodeEntGo : Nat → List Char → List Char
  | 0, _ => []
  | _ + 1, [] => []
  | fuel + 1, c :: rest =>
    if c == '&' then
      match tryRef rest with
      | some (out, rest2) => out ++ decodeEntGo fuel rest2
      | none => c :: decodeEntGo fuel rest
    else c :: decodeEntGo fuel rest

/-- Entity decoding of a cell's (tag-stripped) inner text. -/
def decodeEnt (s : List Char) : List Char :=
  decodeEntGo s.length s

/-- The source's `reconstructFromViewSource`: collect all line-content cell
captures (tag-stripped, entity-decoded); when there are none return the input
verbatim, otherwise join the cells with newlines. -/
def reconstructFromViewSource (html : String) : String :=
  match (rawCells html).map (fun inner => decodeEnt (stripTags inner)) with
  | [] => html
  | cells => String.mk (List.intercalate ['\n'] cells)

/-! ### Claims C3 and C4 -/

/-- Claim C3: for every input string in which the view-source cell pattern
(a `<td>` whose class attribute contains "line-content") matches zero times,
`reconstructFromViewSource` returns the input string unchanged. -/
theorem c3_no_cells_identity (html : String) (h : rawCells html = []) :
    reconstructFromViewSource html = html := by
  simp [reconstructFromViewSource, h]

/-- A page that is already real markup (no line-content cells). -/
def c3Html : String := "<p>hello</p>"

/-- Witness for Claim C3 at a page with no line-content cells. -/
theorem c3_no_cells_identity_witness :
    rawCells c3Html = [] ∧ reconstructFromViewSource c3Html = c3Html :=
  ⟨by decide, c3_no_cells_identity c3Html (by decide)⟩

/-- Claim C4: for every input containing at least one line-content table
cell, `reconstructFromViewSource` returns exactly the cells' lines joined by
newline, one per cell in scan (document) order, where each line is the cell's
inner content with all nested tags removed and HTML entities decoded; the
number of joined lines equals the number of matched cells. -/
theorem c4_reconstruct_joins_cells (html : String) (h : rawCells html ≠ []) :
    reconstructFromViewSource html =
      String.mk (List.intercalate ['\n']
        ((rawCells html).map (fun inner => decodeEnt (stripTags inner)))) ∧
    ((rawCells html).map (fun inner => decodeEnt (stripTags inner))).length =
      (rawCells html).length := by
  refine ⟨?_, List.length_map _ _⟩
  cases hc : rawCells html with
  | nil => exact absurd hc h
  | cons a t => simp [reconstructFromViewSource, hc]

/-- A synthetic two-line view-source dump: first cell entity-escaped, second
cell with a decorative nested tag and an `&amp;`. -/
def c4Html : String :=
  "<table><tr><td class=\"line-content\">&lt;p&gt;one&lt;/p&gt;</td></tr><tr><td class='a line-content b'><span>two</span> &amp; three</td></tr></table>"

set_option maxRecDepth 8192 in
/-- Witness for Claim C4 at the synthetic two-cell dump (its reconstruction
is the two decoded lines "<p>one</p>" and "two & three" joined by a
newline). -/
theorem c4_reconstruct_joins_cells_witness :
    rawCells c4Html ≠ [] ∧
    (reconstructFromViewSource c4Html =
      String.mk (List.intercalate ['\n']
        ((rawCells c4Html).map (fun inner => decodeEnt (stripTags inner)))) ∧
     ((rawCells c4Html).map (fun inner => decodeEnt (stripTags inner))).length =
      (rawCells c4Html).length) :=
  ⟨by decide, c4_reconstruct_joins_cells c4Html (by decide)⟩

/-! ### Request handler input validation (src/index.js lines 19-33) -/

/-- JS `String.prototype.trim`. -/
def jsTrim (s : String) : String :=
  String.mk (trimList s.data)

/-- UTF-8 encoding of one character, as a list of byte values. -/
def utf8Bytes (c : Char) : List Nat :=
  if c.toNat < 128 then [c.toNat]
  else if c.toNat < 2048 then [192 + c.toNat / 64, 128 + c.toNat % 64]
  else if c.toNat < 65536 then
    [224 + c.toNat / 4096, 128 + (c.toNat / 64) % 64, 128 + c.toNat % 64]
  else
    [240 + c.toNat / 262144, 128 + (c.toNat / 4096) % 64,
     128 + (c.toNat / 64) % 64, 128 + c.toNat % 64]

/-- Uppercase hexadecimal digit for a value below 16. -/
def hexDigitCh (n : Nat) : Char :=
  if n < 10 then Char.ofNat (48 + n) else Char.ofNat (55 + n)

/-- The characters `encodeURIComponent` leaves unescaped. -/
def isUnreservedUri (c : Char) : Bool :=
  isAsciiAlphaNum c || c == '-' || c == '_' || c == '.' || c == '!' || c == '~' ||
  c == '*' || c == '\'' || c == '(' || c == ')'

/-- Modelled from the spec: the JS builtin `encodeURIComponent` (the spec's
"percent-encoding the identifier into a fixed templated path", §6), which is
not part of this repository: unreserved characters pass through, every other
character becomes the percent-encoding of its UTF-8 bytes. -/
def encodeURIComponent (s : String) : String :=
  String.mk ((s.data.map (fun c =>
    if isUnreservedUri c then [c]
    else ((utf8Bytes c).map
      (fun b => ['%', hexDigitCh (b / 16), hexDigitCh (b % 16)])).flatten)).flatten)

/-- The upstream URL built by the handler (src/index.js line 26). -/
def lodestoneUrl (id : String) : String :=
  "https://na.finalfantasyxiv.com/lodestone/character/" ++ encodeURIComponent id ++ "/class_job/"

/-- What the handler decides to do after its input-validation prefix: respond
immediately with a client error, or proceed to fetch the upstream URL. -/
inductive HandlerAction where
  | badRequest (status : Nat) (error : String)
  | fetch (url : String)
  deriving DecidableEq

/-- The validation prefix of the `/character/:character` route handler:
`const id = (req.params.character || "").trim(); if (!id) return
res.status(400).json({error: "Missing character ID."});` — only a non-empty
trimmed id reaches the upstream fetch. -/
def characterRoute (param : Option String) : HandlerAction :=
  if jsTrim (param.getD "") == "" then
    HandlerAction.badRequest 400 "Missing character ID."
  else HandlerAction.fetch (lodestoneUrl (jsTrim (param.getD "")))

/-! ### Claim C9 -/

/-- Claim C9: for every request whose path identifier is empty or
whitespace-only, the handler returns an input-validation failure (HTTP 400
with an error message) and the upstream fetch is never invoked. -/
theorem c9_blank_id_rejected (c u : String) (h : c.data.all isJsWs = true) :
    characterRoute (some c) = HandlerAction.badRequest 400 "Missing character ID." ∧
    characterRoute (some c) ≠ HandlerAction.fetch u := by
  have h1 : c.data.dropWhile isJsWs = [] := dropWhile_eq_nil_of_all _ _ h
  have htrim : jsTrim c = "" := by
    rw [jsTrim, trimList, h1]
    rfl
  have heq : characterRoute (some c) =
      HandlerAction.badRequest 400 "Missing character ID." := by
    simp [characterRoute, htrim]
  refine ⟨heq, ?_⟩
  rw [heq]
  simp

/-- Witness for Claim C9 at the whitespace-only identifier " ". -/
theorem c9_blank_id_rejected_witness :
    ((" " : String).data.all isJsWs = true) ∧
    (characterRoute (some " ") =
        HandlerAction.badRequest 400 "Missing character ID." ∧
      characterRoute (some " ") ≠ HandlerAction.fetch "https://example.org/") :=
  ⟨by decide, c9_blank_id_rejected " " "https://example.org/" (by decide)⟩

/-! ### Fuel adequacy of the scanners

The three fueled scanners (`scanCellsGo`, `stripTagsGo`, `decodeEntGo`) model
unbounded JS loops.  The lemmas below show each scanner consumes at least one
character per recursive call, so any fuel at least the input length gives the
same result: the fuel is an implementation device, not part of the modelled
semantics. -/

/-- A successful prefix test means the pattern is no longer than the
subject. -/
lemma startsWithBy_length (eq : Char → Char → Bool) :
    ∀ pat l : List Char, startsWithBy eq pat l = true → pat.length ≤ l.length
  | [], _, _ => Nat.zero_le _
  | _ :: _, [], h => by simp [startsWithBy] at h
  | p :: ps, c :: cs, h => by
    rw [startsWithBy, Bool.and_eq_true] at h
    simpa using startsWithBy_length eq ps cs h.2

/-- The lazy tail never returns a longer remainder than its input. -/
lemma lazyClose_length :
    ∀ w cap rest : List Char, lazyClose w = some (cap, rest) → rest.length ≤ w.length := by
  intro w
  induction w with
  | nil => intro cap rest h; simp [lazyClose] at h
  | cons c w ih =>
    intro cap rest h
    rw [lazyClose] at h
    split at h
    · rw [Option.some.injEq, Prod.mk.injEq] at h
      rw [← h.2, List.length_drop]
      exact Nat.sub_le _ _
    · split at h
      next cap2 rest2 heq =>
        rw [Option.some.injEq, Prod.mk.injEq] at h
        rw [← h.2]
        exact Nat.le_succ_of_le (ih cap2 rest2 heq)
      next => simp at h

/-- The class segment never returns a longer remainder than its input. -/
lemma classAttempt_length :
    ∀ v w : List Char, classAttempt v = some w → w.length ≤ v.length := by
  intro v w h
  rw [classAttempt] at h
  split at h
  case isFalse => simp at h
  case isTrue =>
    split at h
    next q t heq6 =>
      split at h
      case isFalse => simp at h
      case isTrue =>
        split at h
        next x u hequ =>
          split at h
          case isFalse => simp at h
          case isTrue =>
            split at h
            next y w2 heqw =>
              rw [Option.some.injEq] at h
              rw [← h]
              have l1 : (u.dropWhile (fun c => c != '>')).length ≤ u.length :=
                (List.dropWhile_sublist _).length_le
              rw [heqw] at l1
              have l2 : (t.dropWhile (fun c => !(isQuote c))).length ≤ t.length :=
                (List.dropWhile_sublist _).length_le
              rw [hequ] at l2
              have l3 : (v.drop 6).length = t.length + 1 := by rw [heq6]; rfl
              rw [List.length_drop] at l3
              have l4 : v.length - 6 ≤ v.length := Nat.sub_le _ _
              simp only [List.length_cons] at l1 l2
              omega
            next => simp at h
        next => simp at h
    next => simp at h

/-- One backtracking attempt never returns a longer remainder than its
input. -/
lemma tdAttemptAt_length (rest : List Char) (k : Nat) (cap after : List Char)
    (h : tdAttemptAt rest k = some (cap, after)) : after.length ≤ rest.length := by
  rw [tdAttemptAt] at h
  split at h
  next w heq =>
    have h1 := lazyClose_length w cap after h
    have h2 := classAttempt_length (rest.drop k) w heq
    have h3 : (rest.drop k).length ≤ rest.length := by
      rw [List.length_drop]; exact Nat.sub_le _ _
    omega
  next => simp at h

/-- The greedy backtracking loop never returns a longer remainder than its
input. -/
lemma tdTryAt_length :
    ∀ (k : Nat) (rest cap after : List Char),
      tdTryAt k rest = some (cap, after) → after.length ≤ rest.length := by
  intro k
  induction k with
  | zero =>
    intro rest cap after h
    rw [tdTryAt] at h
    exact tdAttemptAt_length rest 0 cap after h
  | succ k ih =>
    intro rest cap after h
    rw [tdTryAt] at h
    split at h
    next res heq =>
      rw [Option.some.injEq] at h
      rw [h] at heq
      exact tdAttemptAt_length rest (k + 1) cap after heq
    next => exact ih rest cap after h

/-- A full cell match strictly consumes input (at least the `<td` literal). -/
lemma matchTdAt_length (s cap after : List Char)
    (h : matchTdAt s = some (cap, after)) : after.length < s.length := by
  rw [matchTdAt] at h
  split at h
  case isTrue h0 =>
    have h3 : tdOpenChars.length ≤ s.length := startsWithBy_length lcEq tdOpenChars s h0
    have h4 : tdOpenChars.length = 3 := rfl
    have h1 := tdTryAt_length _ (s.drop 3) cap after h
    have h2 : (s.drop 3).length = s.length - 3 := List.length_drop _ _
    omega
  case isFalse => simp at h

/-- Unfolding equation for the cell scan (definitional). -/
lemma scanCellsGo_cons (fuel : Nat) (c : Char) (rest : List Char) :
    scanCellsGo (fuel + 1) (c :: rest) =
      match matchTdAt (c :: rest) with
      | some (cap, after) => cap :: scanCellsGo fuel after
      | none => scanCellsGo fuel rest := rfl

/-- The cell scan is insensitive to the exact fuel, as long as the fuel is at
least the input length. -/
lemma scanCellsGo_fuel :
    ∀ fuel1 fuel2 : Nat, ∀ s : List Char,
      s.length ≤ fuel1 → s.length ≤ fuel2 →
      scanCellsGo fuel1 s = scanCellsGo fuel2 s := by
  intro fuel1
  induction fuel1 with
  | zero =>
    intro fuel2 s h1 h2
    cases s with
    | nil => cases fuel2 <;> rfl
    | cons c rest => simp at h1
  | succ fuel1 ih =>
    intro fuel2 s h1 h2
    cases s with
    | nil => cases fuel2 <;> rfl
    | cons c rest =>
      cases fuel2 with
      | zero => simp at h2
      | succ fuel2 =>
        rw [List.length_cons] at h1 h2
        rw [scanCellsGo_cons, scanCellsGo_cons]
        cases hm : matchTdAt (c :: rest) with
        | none => exact ih fuel2 rest (by omega) (by omega)
        | some r =>
          obtain ⟨cap, after⟩ := r
          have hlt := matchTdAt_length (c :: rest) cap after hm
          rw [List.length_cons] at hlt
          show cap :: scanCellsGo fuel1 after = cap :: scanCellsGo fuel2 after
          rw [ih fuel2 after (by omega) (by omega)]

/-- With any sufficient fuel the cell scan computes `rawCells`. -/
lemma rawCells_fuel (html : String) (fuel : Nat) (h : html.data.length ≤ fuel) :
    scanCellsGo fuel html.data = rawCells html :=
  scanCellsGo_fuel fuel html.data.length html.data h (Nat.le_refl _)

/-- Unfolding equation for the tag stripper (definitional). -/
lemma stripTagsGo_cons (fuel : Nat) (c : Char) (rest : List Char) :
    stripTagsGo (fuel + 1) (c :: rest) =
      if c == '<' then
        match rest.takeWhile (fun x => x != '>'), rest.dropWhile (fun x => x != '>') with
        | [], _ => c :: stripTagsGo fuel rest
        | _ :: _, [] => c :: stripTagsGo fuel rest
        | _ :: _, _ :: w => stripTagsGo fuel w
      else c :: stripTagsGo fuel rest := rfl

/-- The tag stripper is insensitive to the exact fuel, as long as the fuel is
at least the input length. -/
lemma stripTagsGo_fuel :
    ∀ fuel1 fuel2 : Nat, ∀ s : List Char,
      s.length ≤ fuel1 → s.length ≤ fuel2 →
      stripTagsGo fuel1 s = stripTagsGo fuel2 s := by
  intro fuel1
  induction fuel1 with
  | zero =>
    intro fuel2 s h1 h2
    cases s with
    | nil => cases fuel2 <;> rfl
    | cons c rest => simp at h1
  | succ fuel1 ih =>
    intro fuel2 s h1 h2
    cases s with
    | nil => cases fuel2 <;> rfl
    | cons c rest =>
      cases fuel2 with
      | zero => simp at h2
      | succ fuel2 =>
        rw [List.length_cons] at h1 h2
        rw [stripTagsGo_cons, stripTagsGo_cons]
        by_cases hc : (c == '<') = true
        · rw [if_pos hc, if_pos hc]
          cases htw : rest.takeWhile (fun x => x != '>') with
          | nil =>
            show c :: stripTagsGo fuel1 rest = c :: stripTagsGo fuel2 rest
            rw [ih fuel2 rest (by omega) (by omega)]
          | cons x xs =>
            cases hdw : rest.dropWhile (fun x => x != '>') with
            | nil =>
              show c :: stripTagsGo fuel1 rest = c :: stripTagsGo fuel2 rest
              rw [ih fuel2 rest (by omega) (by omega)]
            | cons y w =>
              show stripTagsGo fuel1 w = stripTagsGo fuel2 w
              have hs : (rest.dropWhile (fun x => x != '>')).length ≤ rest.length :=
                (List.dropWhile_sublist _).length_le
              rw [hdw, List.length_cons] at hs
              exact ih fuel2 w (by omega) (by omega)
        · rw [if_neg hc, if_neg hc]
          show c :: stripTagsGo fuel1 rest = c :: stripTagsGo fuel2 rest
          rw [ih fuel2 rest (by omega) (by omega)]

/-- With any sufficient fuel the tag stripper computes `stripTags`. -/
lemma stripTags_fuel (s : List Char) (fuel : Nat) (h : s.length ≤ fuel) :
    stripTagsGo fuel s = stripTags s :=
  stripTagsGo_fuel fuel s.length s h (Nat.le_refl _)

/-- A successful decimal reference strictly consumes input. -/
lemma numRefDec_length (rest out rest3 : List Char)
    (h : numRefDec rest = some (out, rest3)) : rest3.length < rest.length := by
  rw [numRefDec] at h
  split at h
  next r3 heq =>
    split at h
    case isTrue => simp at h
    case isFalse =>
      rw [Option.some.injEq, Prod.mk.injEq] at h
      have l1 : (rest.dropWhile isDigitCh).length ≤ rest.length :=
        (List.dropWhile_sublist _).length_le
      rw [heq, List.length_cons] at l1
      rw [← h.2]
      omega
  next => simp at h

/-- A successful hexadecimal reference strictly consumes input. -/
lemma numRefHex_length (rest2 out rest3 : List Char)
    (h : numRefHex rest2 = some (out, rest3)) : rest3.length < rest2.length := by
  rw [numRefHex] at h
  split at h
  next r3 heq =>
    split at h
    case isTrue => simp at h
    case isFalse =>
      rw [Option.some.injEq, Prod.mk.injEq] at h
      have l1 : (rest2.dropWhile isHexDigitCh).length ≤ rest2.length :=
        (List.dropWhile_sublist _).length_le
      rw [heq, List.length_cons] at l1
      rw [← h.2]
      omega
  next => simp at h

/-- A successful named reference strictly consumes input. -/
lemma namedRef_length (s out rest3 : List Char)
    (h : namedRef s = some (out, rest3)) : rest3.length < s.length := by
  rw [namedRef] at h
  split at h
  next r3 heq =>
    split at h
    next ch hch =>
      rw [Option.some.injEq, Prod.mk.injEq] at h
      have l1 : (s.dropWhile isAsciiAlphaNum).length ≤ s.length :=
        (List.dropWhile_sublist _).length_le
      rw [heq, List.length_cons] at l1
      rw [← h.2]
      omega
    next => simp at h
  next => simp at h

/-- A successfully decoded reference strictly consumes input (at least the
terminating `;`). -/
lemma tryRef_cons (c : Char) (rest : List Char) :
    tryRef (c :: rest) =
      if c == '#' then
        match rest with
        | c2 :: rest2 =>
          if c2 == 'x' || c2 == 'X' then numRefHex rest2 else numRefDec rest
        | [] => none
      else namedRef (c :: rest) := rfl

lemma tryRef_length (s out rest2 : List Char)
    (h : tryRef s = some (out, rest2)) : rest2.length < s.length := by
  cases s with
  | nil => exact namedRef_length [] out rest2 h
  | cons c rest =>
    rw [tryRef_cons] at h
    by_cases hp : (c == '#') = true
    · rw [if_pos hp] at h
      cases rest with
      | nil => exact Option.noConfusion h
      | cons c2 rest3 =>
        have h3 : (if c2 == 'x' || c2 == 'X' then numRefHex rest3
            else numRefDec (c2 :: rest3)) = some (out, rest2) := h
        by_cases hx : (c2 == 'x' || c2 == 'X') = true
        · rw [if_pos hx] at h3
          have := numRefHex_length rest3 out rest2 h3
          simp only [List.length_cons]
          omega
        · rw [if_neg hx] at h3
          have := numRefDec_length (c2 :: rest3) out rest2 h3
          simp only [List.length_cons] at this ⊢
          omega
    · rw [if_neg hp] at h
      exact namedRef_length (c :: rest) out rest2 h

/-- Unfolding equation for the entity decoder (definitional). -/
lemma decodeEntGo_cons (fuel : Nat) (c : Char) (rest : List Char) :
    decodeEntGo (fuel + 1) (c :: rest) =
      if c == '&' then
        match tryRef rest with
        | some (out, rest2) => out ++ decodeEntGo fuel rest2
        | none => c :: decodeEntGo fuel rest
      else c :: decodeEntGo fuel rest := rfl

/-- The entity decoder is insensitive to the exact fuel, as long as the fuel
is at least the input length. -/
lemma decodeEntGo_fuel :
    ∀ fuel1 fuel2 : Nat, ∀ s : List Char,
      s.length ≤ fuel1 → s.length ≤ fuel2 →
      decodeEntGo fuel1 s = decodeEntGo fuel2 s := by
  intro fuel1
  induction fuel1 with
  | zero =>
    intro fuel2 s h1 h2
    cases s with
    | nil => cases fuel2 <;> rfl
    | cons c rest => simp at h1
  | succ fuel1 ih =>
    intro fuel2 s h1 h2
    cases s with
    | nil => cases fuel2 <;> rfl
    | cons c rest =>
      cases fuel2 with
      | zero => simp at h2
      | succ fuel2 =>
        rw [List.length_cons] at h1 h2
        rw [decodeEntGo_cons, decodeEntGo_cons]
        by_cases hc : (c == '&') = true
        · rw [if_pos hc, if_pos hc]
          cases hm : tryRef rest with
          | none =>
            show c :: decodeEntGo fuel1 rest = c :: decodeEntGo fuel2 rest
            rw [ih fuel2 rest (by omega) (by omega)]
          | some r =>
            obtain ⟨out, rest2⟩ := r
            have hlt := tryRef_length rest out rest2 hm
            show out ++ decodeEntGo fuel1 rest2 = out ++ decodeEntGo fuel2 rest2
            rw [ih fuel2 rest2 (by omega) (by omega)]
        · rw [if_neg hc, if_neg hc]
          show c :: decodeEntGo fuel1 rest = c :: decodeEntGo fuel2 rest
          rw [ih fuel2 rest (by omega) (by omega)]

/-- With any sufficient fuel the entity decoder computes `decodeEnt`. -/
lemma decodeEnt_fuel (s : List Char) (fuel : Nat) (h : s.length ≤ fuel) :
    decodeEntGo fuel s = decodeEnt s :=
  decodeEntGo_fuel fuel s.length s h (Nat.le_refl _)

end FFXIVStats
